import Mathlib

/-
Verification of the OS.js backend VFS layer.

The definitions below are a shallow embedding of the Node server sources:
  src/server/node/lib/vfs.js               (VFS dispatcher)
  src/server/node/modules/vfs/filesystem.js (default filesystem transport)
  src/server/node/lib/packagemanager.js     (package manager)
Each definition's doc comment names the source function it embeds.
-/

namespace OSJS

/-- A mountpoint configuration entry (`instance.CONFIG.vfs.mounts[name]`):
either a template string, or an object `{destination, transport, enabled, ro}`
in which any field may be absent (JS `undefined` is `none`). -/
inductive MountEntry where
  | str (template : String)
  | obj (destination : Option String) (transport : Option String)
        (enabled : Option Bool) (ro : Option Bool)
deriving DecidableEq, Repr

/-- JS object property lookup on a literal object, modelled as an
association-list lookup (first binding wins). -/
def jsLookup (m : List (String × α)) (k : String) : Option α :=
  (m.find? (fun p => p.1 == k)).map Prod.snd

/-- Splits a character list at the LAST occurrence of "://" — the greedy
regex `(.*)\:\/\/(.*)` used by both `findTransport` and
`resolveRequestPath` makes the first capture group consume as much as
possible, so the split happens at the final "://". -/
def splitProtoChars : List Char → Option (List Char × List Char)
  | [] => none
  | c :: rest =>
    match splitProtoChars rest with
    | some (a, b) => some (c :: a, b)
    | none =>
      if c = ':' && ['/', '/'].isPrefixOf rest then some ([], rest.drop 2)
      else none

/-- Splits `query` into (protocol, raw path) at the last "://";
`none` when the query holds no "://" (the regex then leaves
`parts[1]`/`parts[2]` undefined). -/
def splitProtocol (q : String) : Option (String × String) :=
  (splitProtoChars q.toList).map fun p => (String.mk p.1, String.mk p.2)

/-- The VFS argument object: the fields the dispatcher and transports read.
Absent fields are `none` (JS `undefined`). -/
structure VfsArgs where
  path : Option String := none
  src : Option String := none
  dest : Option String := none
  root : Option String := none
deriving DecidableEq, Repr

/-- The `writeableMap` array of `findTransport` in lib/vfs.js. -/
def writeableMap : List String := ["upload", "write", "delete", "copy", "move", "mkdir"]

/-- The `argumentMap` of `findTransport` in lib/vfs.js, applied the way
`findTransport` applies it: `(argumentMap[method] || argumentMap._default)(args)`
passes a single argument, so the `dest` parameter of the `move`/`copy`
extractors is `undefined` and they return `args.src`. -/
def extractQuery (method : String) (args : VfsArgs) : Option String :=
  if method = "freeSpace" then args.root
  else if method = "move" then args.src
  else if method = "copy" then args.src
  else args.path

/-- The object `findTransport` returns on success: the parsed query plus the
transport found in `instance.VFS` (`none` when no registered module carries
the resolved name). -/
structure FoundTransport where
  query : String
  protocol : Option String
  path : String
  transport : Option String
deriving DecidableEq, Repr

/-- Result of `findTransport`: `denied` is the `return false` branch. -/
inductive FindOutcome where
  | denied
  | ok (found : FoundTransport)
deriving DecidableEq, Repr

/-- Embeds `findTransport(instance, method, args)` of lib/vfs.js.
`mounts` is `instance.CONFIG.vfs.mounts`, `registry` the names of the
modules in `instance.VFS` in order. Returns `none` when the extracted
query is `undefined` (the source would then throw on `query.split`).
The mount check applies only to object-valued mounts (`typeof mount ===
'object'`): it denies when `enabled === false`, or `ro === true` and the
method is in `writeableMap`. The transport name defaults to
`'__default__'` unless the mount object carries a string `transport`. -/
def findTransport (mounts : List (String × MountEntry)) (registry : List String)
    (method : String) (args : VfsArgs) : Option FindOutcome :=
  match extractQuery method args with
  | none => none
  | some query =>
    let parts := splitProtocol query
    let protocol : Option String := parts.map Prod.fst
    -- parsed.path is `String(parts[2]).replace(/^\/+?/, '/')`: the
    -- non-greedy `\/+?` matches exactly one leading slash and is replaced
    -- by a slash, leaving the string unchanged; with no "://" the
    -- stringified undefined is "undefined"
    let path : String := match parts with
      | some p => p.2
      | none => "undefined"
    let mount := protocol.bind (jsLookup mounts)
    let transportName : String := match mount with
      | some (.obj _ (some t) _ _) => t
      | _ => "__default__"
    let deniedB : Bool := match mount with
      | some (.obj _ _ en ro) =>
          (en == some false) || ((ro == some true) && writeableMap.contains method)
      | _ => false
    if deniedB then some .denied
    else some (.ok { query := query, protocol := protocol, path := path,
                     transport := registry.find? (fun n => n == transportName) })

/-- Boolean string-prefix test, by character list. -/
def strStartsWith (s p : String) : Bool := p.toList.isPrefixOf s.toList

/-- Drops the first `n` characters of a string. -/
def strDrop (s : String) (n : Nat) : String := String.mk (s.toList.drop n)

/-- Strips the optional leading "get/" of the endpoint:
`http.endpoint.replace(/(^get\/)?/, '')`. -/
def stripGet (endpoint : String) : String :=
  if strStartsWith endpoint "get/" then strDrop endpoint 4 else endpoint

/-- What `module.exports.request` of lib/vfs.js does with a request:
either reject with a message, or invoke `transport.request` with the
normalized `{query, method, data}` envelope (recorded here as the
transport's name plus that envelope). -/
inductive ReqOutcome where
  | rejected (msg : String)
  | transportCall (transport : String) (query : String) (method : String) (data : VfsArgs)
deriving DecidableEq, Repr

/-- Embeds `module.exports.request(instance, http, resolve, reject)` of
lib/vfs.js. For a GET request the data is `{path: endpoint minus "get/"}`
and the dispatched method is `'read'`; otherwise the endpoint and
`http.data` are used as given. A `false` from `findTransport` rejects
with 'Operation denied!', a missing transport with 'Cannot find VFS
module for: <query>'. -/
def vfsRequest (mounts : List (String × MountEntry)) (registry : List String)
    (httpMethod : String) (endpoint : String) (httpData : VfsArgs) : Option ReqOutcome :=
  let data := if httpMethod = "GET" then { path := some (stripGet endpoint) : VfsArgs }
              else httpData
  let fn := if httpMethod = "GET" then "read" else endpoint
  match findTransport mounts registry fn data with
  | none => none
  | some .denied => some (.rejected "Operation denied!")
  | some (.ok found) =>
    match found.transport with
    | none => some (.rejected ("Cannot find VFS module for: " ++ found.query))
    | some t => some (.transportCall t found.query fn data)

/-- Embeds `module.exports.createWriteStream(instance, http, path)` of
lib/vfs.js: it resolves the transport with `findTransport(instance,
'read', {path: path})` and calls that transport's `createWriteStream`.
The value is the name of the transport whose `createWriteStream` runs;
`none` when the source would instead throw (`found.transport` on the
boolean `false`, or a method call on `undefined`). -/
def createWriteStreamTransport (mounts : List (String × MountEntry)) (registry : List String)
    (path : String) : Option String :=
  match findTransport mounts registry "read" { path := some path } with
  | some (.ok found) => found.transport
  | _ => none

/-! Path arithmetic: a model of Node `path.join` (POSIX). -/

/-- Splits a character list into segments at every '/' (the segment
decomposition Node path normalization works on). -/
def splitSegsAux : List Char → List Char → List String
  | acc, [] => [String.mk acc.reverse]
  | acc, c :: rest =>
    if c = '/' then String.mk acc.reverse :: splitSegsAux [] rest
    else splitSegsAux (c :: acc) rest

/-- Splits a string into '/'-separated segments. -/
def splitSegs (s : String) : List String := splitSegsAux [] s.toList

/-- One step of Node path normalization over a reversed accumulator of kept
segments: empty and "." segments are dropped; ".." pops the previous
segment, except at the root of an absolute path (dropped) or after a kept
".." of a relative path (kept). -/
def processSeg (abs : Bool) (acc : List String) (seg : String) : List String :=
  if seg = "" || seg = "." then acc
  else if seg = ".." then
    match acc with
    | [] => if abs then [] else [".."]
    | p :: rest => if p = ".." then seg :: p :: rest else rest
  else seg :: acc

/-- Joins segments with '/'. -/
def joinSlash : List String → String
  | [] => ""
  | [s] => s
  | s :: rest => s ++ "/" ++ joinSlash rest

/-- Whether a path string is absolute (leading '/'). -/
def isAbs (s : String) : Bool :=
  match s.toList with
  | c :: _ => c == '/'
  | [] => false

/-- Embeds Node `path.join(a, b)` on POSIX: concatenate with a '/', then
normalize; an empty result is '.'. -/
def pathJoin (a b : String) : String :=
  let s := a ++ "/" ++ b
  let abs := isAbs s
  let segs := ((splitSegs s).foldl (processSeg abs) []).reverse
  let out := (if abs then "/" else "") ++ joinSlash segs
  if out = "" then "." else out

/-- Boolean string-prefix test ("rooted under"), by character list. -/
def strIsPrefix (p s : String) : Bool := p.toList.isPrefixOf s.toList

/-- The segments path normalization keeps verbatim: neither empty nor '.'
(the ".." case is handled separately by `processSeg`). -/
def keepSeg (s : String) : Bool := !(s == "" || s == ".")

/-- Removes `pre` from the front of `l` when it is a prefix, returning the
remainder. -/
def stripPre : List Char → List Char → Option (List Char)
  | [], l => some l
  | _ :: _, [] => none
  | p :: ps, c :: cs => if p = c then stripPre ps cs else none

/-- One left-to-right, non-overlapping global replacement pass (the `'g'`
regex flag on a literal pattern). `fuel` bounds the recursion by the
input length; an empty pattern leaves the input unchanged (the embedded
code only replaces nonempty tokens). -/
def replaceCharsFuel (pat rep : List Char) : Nat → List Char → List Char
  | _, [] => []
  | 0, l => l
  | fuel + 1, c :: rest =>
    match stripPre pat (c :: rest) with
    | some remainder =>
      if pat.isEmpty then c :: replaceCharsFuel pat rep fuel rest
      else rep ++ replaceCharsFuel pat rep fuel remainder
    | none => c :: replaceCharsFuel pat rep fuel rest

/-- Global string replacement of a literal pattern
(`s.replace(new RegExp(pat, 'g'), rep)`). -/
def strReplace (s pat rep : String) : String :=
  String.mk (replaceCharsFuel pat.toList rep.toList s.toList.length s.toList)

/-! The default filesystem transport, modules/vfs/filesystem.js. -/

/-- The parts of the server instance and session `resolveRequestPath`
reads: `instance.DIST`, `instance.DIRS.root`, and
`http.session.get('username')`. -/
structure ResolveEnv where
  dist : String
  droot : String
  username : String
deriving DecidableEq, Repr

/-- The replacement map `rmap` of `resolveRequestPath`, in the source's key
order; both '%UID%' and '%USERNAME%' yield the session username. -/
def rmap (env : ResolveEnv) (protocol : String) : List (String × String) :=
  [("%DIST%", env.dist), ("%UID%", env.username), ("%USERNAME%", env.username),
   ("%DROOT%", env.droot), ("%MOUNTPOINT%", protocol)]

/-- The token substitution loop of `resolveRequestPath`: one
global-replace pass per token, in map order
(`found = found.replace(new RegExp(k, 'g'), rmap[k]())`). -/
def substTokens (env : ResolveEnv) (protocol : String) (tmpl : String) : String :=
  (rmap env protocol).foldl (fun acc p => strReplace acc p.1 p.2) tmpl

/-- Strips exactly one leading slash: `.replace(/^\/+?/, '')` — the
non-greedy `\/+?` matches a single '/'. -/
def stripOneSlash (s : String) : String :=
  if strStartsWith s "/" then strDrop s 1 else s

/-- The mount narrowing of `resolveRequestPath` (filesystem.js lines
52–57): `mountpoints[protocol] || mountpoints['*']` (the only falsy mount
entry is an empty template string), then an object entry is narrowed to
its `destination` field. -/
def resolveDestination (mounts : List (String × MountEntry)) (protoKey : String) :
    Option String :=
  let found0 : Option MountEntry :=
    match jsLookup mounts protoKey with
    | some (.str "") => jsLookup mounts "*"
    | some m => some m
    | none => jsLookup mounts "*"
  match found0 with
  | some (.str s) => some s
  | some (.obj d _ _ _) => d
  | none => none

/-- The record `resolveRequestPath` returns. -/
structure Resolved where
  query : String
  protocol : Option String
  path : String
  real : Option String
deriving DecidableEq, Repr

/-- Embeds `resolveRequestPath(instance, http, query)` of filesystem.js:
split the query at "://", strip one leading slash from the path part,
look up the destination (falling back to the '*' mount), substitute the
tokens, and set `real = path.join(found, path)`; `real` stays null when
no destination string is configured. With no "://" in the query the
protocol and path are the stringified `undefined`. -/
def resolveRequestPath (mounts : List (String × MountEntry)) (env : ResolveEnv)
    (query : String) : Resolved :=
  let parts := splitProtocol query
  let protocol : Option String := parts.map Prod.fst
  let protoKey : String := match protocol with
    | some p => p
    | none => "undefined"
  let path : String := match parts with
    | some p => stripOneSlash p.2
    | none => stripOneSlash "undefined"
  let real : Option String :=
    (resolveDestination mounts protoKey).map
      (fun f => pathJoin (substTokens env protoKey f) path)
  { query := query, protocol := protocol, path := path, real := real }

/-- Settlement of a transport promise: exactly one of `resolve(v)` or
`reject(message)`. -/
inductive Settle (α : Type) where
  | resolved (v : α)
  | rejected (msg : String)
deriving DecidableEq, Repr

/-- Embeds `existsWrapper(checkFound, real, resolve, reject)` of
filesystem.js: with `checkFound` it rejects 'File or directory already
exist.' when the target exists and otherwise resolves true; without, it
resolves true when the target exists and otherwise rejects 'No such file
or directory'. -/
def existsWrapper (checkFound : Bool) (targetExists : Bool) : Settle Bool :=
  if checkFound then
    if targetExists then .rejected "File or directory already exist."
    else .resolved true
  else
    if targetExists then .resolved true
    else .rejected "No such file or directory"

/-- `_fs.exists` applied to a possibly-null `resolved.real`: null never
exists. `fsExists` is the filesystem oracle. -/
def optExists (fsExists : String → Bool) : Option String → Bool
  | some r => fsExists r
  | none => false

/-- Embeds `VFS.exists` of filesystem.js: it calls
`existsWrapper(true, resolved.real, resolve, reject)` — with `true` as
the `checkFound` flag. -/
def VFS_exists (mounts : List (String × MountEntry)) (env : ResolveEnv)
    (path : String) (fsExists : String → Bool) : Settle Bool :=
  let resolved := resolveRequestPath mounts env path
  existsWrapper true (optExists fsExists resolved.real)

/-- A JavaScript value as far as strict equality in the embedded code
distinguishes them: `undefined` or a string. -/
inductive JsVal where
  | undef
  | str (s : String)
deriving DecidableEq, Repr

/-- JS `Array.prototype.indexOf` with strict (===) comparison: first index
of the argument, -1 when absent. -/
def jsIndexOf (l : List JsVal) (x : JsVal) : Int :=
  match l.findIdx? (fun v => v == x) with
  | some i => (i : Int)
  | none => -1

/-- `String(v)` on an optional string: `undefined` stringifies to
"undefined". -/
def jsString (o : Option String) : String := o.getD "undefined"

/-- What and whether `VFS.delete` removed, plus the settlement. -/
structure DeleteResult where
  outcome : Settle Bool
  removedPath : Option String := none
deriving DecidableEq, Repr

/-- Embeds `VFS.delete` of filesystem.js. Its guard is
`if ( ['', '.', '/'].indexOf() !== -1 ) return reject('Permission denied')`
— the source invokes `indexOf` with no argument, i.e. with `undefined`.
Then `existsWrapper(false, resolved.real, …)` and `_fs.remove`;
`removeErr` is the oracle for the remove call (`none` = success). -/
def VFS_delete (mounts : List (String × MountEntry)) (env : ResolveEnv)
    (path : String) (fsExists : String → Bool) (removeErr : Option String) :
    DeleteResult :=
  let resolved := resolveRequestPath mounts env path
  if jsIndexOf [.str "", .str ".", .str "/"] .undef != -1 then
    { outcome := .rejected "Permission denied" }
  else
    match existsWrapper false (optExists fsExists resolved.real) with
    | .rejected m => { outcome := .rejected m }
    | .resolved _ =>
      match removeErr with
      | some e => { outcome := .rejected ("Error deleting: " ++ e),
                    removedPath := resolved.real }
      | none => { outcome := .resolved true, removedPath := resolved.real }

/-- Substring of `iter` from its LAST '.' (`iter.substr(iter.lastIndexOf('.'))`),
`none` when there is no dot. -/
def extChars : List Char → Option (List Char)
  | [] => none
  | c :: rest =>
    match extChars rest with
    | some e => some e
    | none => if c = '.' then some (c :: rest) else none

/-- Embeds `getMime(instance, iter)` of lib/vfs.js: looks up
`instance.CONFIG.mimes[ext || 'default']`; an absent mime entry is
`undefined`, which stringifies to "undefined" when concatenated. -/
def getMime (mimes : List (String × String)) (iter : String) : String :=
  let ext : Option String := (extChars iter.toList).map String.mk
  jsString (jsLookup mimes (ext.getD "default"))

/-- A block-scoped JS binding: `tdz` is a declared-but-uninitialized
`const`/`let` binding (temporal dead zone). -/
inductive Binding (α : Type) where
  | tdz
  | val (v : α)

/-- Reads a variable from a scope chain (innermost binding first); a
binding read inside its temporal dead zone throws a ReferenceError. -/
def readVar (scopes : List (String × Binding α)) (n : String) : Except String α :=
  match scopes.find? (fun p => p.1 == n) with
  | some (_, .tdz) =>
      .error ("ReferenceError: Cannot access \x27" ++ n ++ "\x27 before initialization")
  | some (_, .val v) => .ok v
  | none => .error ("ReferenceError: " ++ n ++ " is not defined")

/-- The base64 alphabet. -/
def b64Char (n : Nat) : Char :=
  "ABCDEFGHIJKLMNOPQRSTUVWXYZabcdefghijklmnopqrstuvwxyz0123456789+/".toList.getD n 'A'

/-- Base64 of a byte sequence (what `Buffer.toString('base64')` yields). -/
def b64Encode : List Nat → String
  | b0 :: b1 :: b2 :: rest =>
    String.mk [b64Char (b0 / 4), b64Char (b0 % 4 * 16 + b1 / 16),
               b64Char (b1 % 16 * 4 + b2 / 64), b64Char (b2 % 64)] ++ b64Encode rest
  | [b0, b1] =>
    String.mk [b64Char (b0 / 4), b64Char (b0 % 4 * 16 + b1 / 16),
               b64Char (b1 % 16 * 4), '=']
  | [b0] => String.mk [b64Char (b0 / 4), b64Char (b0 % 4 * 16), '=', '=']
  | [] => ""

/-- Outcome of `VFS.read` as observed by the caller and the HTTP layer. -/
inductive ReadOutcome where
  | streamed (real : Option String)
  | resolvedBuf (bytes : List Nat)
  | resolvedStr (s : String)
  | rejected (msg : String)
  | threw (msg : String)
deriving DecidableEq, Repr

/-- Embeds `VFS.read` of filesystem.js. `readFile` is the oracle for
`_fs.readFile(resolved.real, …)`. With `options.raw !== false` the file
is streamed to the response (`options.stream !== false`) or its buffer
resolved. With `options.raw === false` the else-block runs
`const data = 'data:' + mime + ';base64,' + (new Buffer(data).toString('base64'))`:
the block-scoped `data` shadows the callback's `data` parameter, so the
initializer reads the new binding inside its own temporal dead zone. -/
def VFS_read (mounts : List (String × MountEntry)) (env : ResolveEnv)
    (mimes : List (String × String)) (path : String)
    (rawOpt : Option Bool) (streamOpt : Option Bool)
    (readFile : Option String → Except String (List Nat)) : ReadOutcome :=
  let resolved := resolveRequestPath mounts env path
  if rawOpt != some false then
    if streamOpt != some false then .streamed resolved.real
    else
      match readFile resolved.real with
      | .error e => .rejected e
      | .ok r => .resolvedBuf r
  else
    let mime := getMime mimes path
    match readFile resolved.real with
    | .error e => .rejected e
    | .ok buf =>
      let scopes : List (String × Binding (List Nat)) :=
        [("data", .tdz), ("data", .val buf)]
      match readVar scopes "data" with
      | .error e => .threw e
      | .ok v => .resolvedStr ("data:" ++ mime ++ ";base64," ++ b64Encode v)

/-- How `VFS.upload` ends: the success path answers with a raw '1'
response (after unlinking the source); every other path rejects. -/
inductive UploadOutcome where
  | respondedRaw
  | rejectedMsg (msg : String)
deriving DecidableEq, Repr

/-- Upload outcome plus whether the destination write stream (opened with
flags 'w') was created and whether the temporary source was unlinked. -/
structure UploadResult where
  outcome : UploadOutcome
  destOpened : Bool
  sourceUnlinked : Bool
deriving DecidableEq, Repr

/-- Embeds `VFS.upload` of filesystem.js. `sourcePath` is
`http.files.upload.path` (the buffered temporary file), the destination
is `path.join(resolve(http.data.path).real, http.files.upload.name)`
(`none` when `real` is null — `path.join` would then throw). The chain:
`existsWrapper(false, source, …)`, then unless
`String(http.data.overwrite) === 'true'` also `existsWrapper(true, dest, …)`;
`_proceed` pipes source into the destination stream, unlinking the source
and responding '1' on close, but rejecting WITHOUT unlinking on a stream
error (`streamErr` oracle, `none` = clean copy). -/
def VFS_upload (mounts : List (String × MountEntry)) (env : ResolveEnv)
    (dataPath sourcePath uploadName : String) (overwrite : Option String)
    (fsExists : String → Bool) (streamErr : Option String) : Option UploadResult :=
  let dresolved := resolveRequestPath mounts env dataPath
  match dresolved.real with
  | none => none
  | some dreal =>
    let dest := pathJoin dreal uploadName
    let proceed : UploadResult :=
      match streamErr with
      | some e => { outcome := .rejectedMsg e, destOpened := true, sourceUnlinked := false }
      | none => { outcome := .respondedRaw, destOpened := true, sourceUnlinked := true }
    match existsWrapper false (fsExists sourcePath) with
    | .rejected m =>
        some { outcome := .rejectedMsg m, destOpened := false, sourceUnlinked := false }
    | .resolved _ =>
      if jsString overwrite = "true" then some proceed
      else
        match existsWrapper true (fsExists dest) with
        | .rejected m =>
            some { outcome := .rejectedMsg m, destOpened := false, sourceUnlinked := false }
        | .resolved _ => some proceed

/-- First index of `needle` inside a character list, `none` when absent. -/
def jsStrIndexOfAux (needle : List Char) : List Char → Option Nat
  | [] => if needle.isPrefixOf ([] : List Char) then some 0 else none
  | c :: t =>
    if needle.isPrefixOf (c :: t) then some 0
    else (jsStrIndexOfAux needle t).map (· + 1)

/-- JS `String.prototype.indexOf`: index of the first occurrence of
`needle` in `hay`, -1 when absent (the empty needle matches at 0). -/
def jsStrIndexOf (hay needle : String) : Int :=
  match jsStrIndexOfAux needle.toList hay.toList with
  | some i => (i : Int)
  | none => -1

/-- Model of JS `String.prototype.toLowerCase` (character-wise). -/
def strToLower (s : String) : String := String.mk (s.toList.map Char.toLower)

/-- JS `a || b` on an optional string: `undefined` and the empty string
are falsy. -/
def jsOr (o : Option String) (d : String) : String :=
  match o with
  | some s => if s = "" then d else s
  | none => d

/-- Embeds `readDir(instance, query, real, filter)` of filesystem.js at the
level of entry names: the raw listing filtered by `filter`; each kept
name is then mapped through `createFileIter`, which copies the name into
the record's `filename` field, so the names of the result are exactly the
filtered listing. -/
def readDirNames (listing : List String) (filter : String → Bool) : List String :=
  listing.filter filter

/-- Embeds the non-recursive branch of `VFS.find` of filesystem.js:
`query = (qargs.query || '').toLowerCase()`, and the filter passed to
`readDir` keeps `iter` when `['.', '..'].indexOf(iter) === -1` and
`iter.toLowerCase().indexOf(query) !== -1`. -/
def VFS_find_nonrec (queryArg : Option String) (listing : List String) : List String :=
  let q := strToLower (jsOr queryArg "")
  readDirNames listing (fun iter =>
    if iter != "." && iter != ".." then jsStrIndexOf (strToLower iter) q != -1
    else false)

/-! The package manager, lib/packagemanager.js. -/

/-- A package metadata value: its `scope` field plus an opaque stand-in
for the other JSON fields. -/
structure PkgMeta where
  scope : Option String := none
  payload : String := ""
deriving DecidableEq, Repr

/-- A parsed package manifest: a JS object keyed by package identifier. -/
abbrev Manifest := List (String × PkgMeta)

/-- JS object assignment `obj[k] = v`: overwrite an existing key,
otherwise append. -/
def upsert (m : Manifest) (k : String) (v : PkgMeta) : Manifest :=
  if (m.find? (fun p => p.1 == k)).isSome then
    m.map (fun p => if p.1 == k then (p.1, v) else p)
  else m ++ [(k, v)]

/-- Sets the scope field of a metadata value (`meta[k].scope = s`). -/
def setScope (sc : String) (v : PkgMeta) : PkgMeta := { v with scope := some sc }

/-- Embeds `getSystemMetadata` of lib/packagemanager.js: the parsed
packages.json manifest for the current dist with every entry's scope set
to 'system'. The file read and JSON parse are abstracted: `sysManifest`
is the already-parsed object. -/
def getSystemMetadata (sysManifest : Manifest) : Manifest :=
  sysManifest.map (fun p => (p.1, setScope "system" p.2))

/-- Embeds `getUserMetadata` of lib/packagemanager.js: iterate the search
paths in order, read each path's packages.json through the VFS, and fold
the parsed entries into `summed` with `scope = 'user'`; later paths
overwrite earlier ones. `userManifests` is the list of
successfully-read-and-parsed manifests in path order (a failed read is
skipped by `.catch(next)`). -/
def getUserMetadata (userManifests : List Manifest) : Manifest :=
  userManifests.foldl
    (fun summed meta =>
      meta.foldl (fun s p => upsert s p.1 (setScope "user" p.2)) summed)
    []

/-- Embeds `module.exports.list` of lib/packagemanager.js: with a falsy
scope, start from the system metadata and add each user key only when
`!summed[k]` (system authoritative); with scope 'system' or 'user' return
that tier; any other scope rejects 'Invalid scope'. -/
def pmList (sysManifest : Manifest) (userManifests : List Manifest)
    (scope : Option String) : Settle Manifest :=
  let noScope : Bool := match scope with
    | none => true
    | some s => s = ""
  if noScope then
    let summed := getSystemMetadata sysManifest
    let user := getUserMetadata userManifests
    .resolved (user.foldl
      (fun s p => if (jsLookup s p.1).isSome then s else s ++ [(p.1, p.2)]) summed)
  else if scope = some "system" then .resolved (getSystemMetadata sysManifest)
  else if scope = some "user" then .resolved (getUserMetadata userManifests)
  else .rejected "Invalid scope"

/-! Shared helper lemmas. -/

/-- A `find?` with an equality test returns the sought element when present. -/
theorem find_beq_self {a : String} {l : List String} (h : a ∈ l) :
    l.find? (fun n => n == a) = some a := by
  induction l with
  | nil => cases h
  | cons x t ih =>
    rcases List.mem_cons.mp h with rfl | hm
    · exact List.find?_cons_of_pos _ (by simp)
    · by_cases hx : x = a
      · subst hx; exact List.find?_cons_of_pos _ (by simp)
      · rw [List.find?_cons_of_neg _ (by simpa using hx)]; exact ih hm

/-- `findTransport` takes the `return false` branch whenever the mount of
the extracted query is an object whose deny condition holds. -/
theorem findTransport_denied (mounts : List (String × MountEntry)) (registry : List String)
    (method : String) (args : VfsArgs) (q p rest : String)
    (d t : Option String) (en ro : Option Bool)
    (hq : extractQuery method args = some q)
    (hsplit : splitProtocol q = some (p, rest))
    (hmount : jsLookup mounts p = some (.obj d t en ro))
    (hd : ((en == some false) || ((ro == some true) && writeableMap.contains method)) = true) :
    findTransport mounts registry method args = some .denied := by
  simp [findTransport, hq, hsplit, hmount]
  intro hne
  have hb : (en == some false) = false := beq_eq_false_iff_ne.mpr hne
  rw [hb, Bool.false_or, Bool.and_eq_true] at hd
  refine ⟨eq_of_beq hd.1, ?_⟩
  rcases List.contains_iff_exists_mem_beq.mp hd.2 with ⟨x, hx, hbeq⟩
  exact (eq_of_beq hbeq) ▸ hx

/-- `vfsRequest` on a non-GET request reduced to the `findTransport` case
split. -/
theorem vfsRequest_post_shape (mounts : List (String × MountEntry)) (registry : List String)
    (endpoint : String) (data : VfsArgs) :
    vfsRequest mounts registry "POST" endpoint data =
      (match findTransport mounts registry endpoint data with
       | none => none
       | some .denied => some (.rejected "Operation denied!")
       | some (.ok found) =>
         match found.transport with
         | none => some (.rejected ("Cannot find VFS module for: " ++ found.query))
         | some t => some (.transportCall t found.query endpoint data)) := rfl

/-- `vfsRequest` on a GET request reduced to the `findTransport` case
split: the method is forced to 'read' and the data to the stripped
endpoint path. -/
theorem vfsRequest_get_shape (mounts : List (String × MountEntry)) (registry : List String)
    (endpoint : String) (data : VfsArgs) :
    vfsRequest mounts registry "GET" endpoint data =
      (match findTransport mounts registry "read" { path := some (stripGet endpoint) } with
       | none => none
       | some .denied => some (.rejected "Operation denied!")
       | some (.ok found) =>
         match found.transport with
         | none => some (.rejected ("Cannot find VFS module for: " ++ found.query))
         | some t => some (.transportCall t found.query "read"
             { path := some (stripGet endpoint) })) := rfl

/-! Claim C1. -/

/-- C1 counterexample: a `copy` whose source lies on a writable mount and
whose destination lies on a mount flagged `ro:true` is NOT rejected — the
dispatcher extracts only `args.src` for copy/move, so the transport's
request method is invoked (the claim asserts rejection with "Operation
denied" whenever either side is read-only). -/
theorem copy_ro_destination_not_denied :
    (vfsRequest [("a", .obj none none none none), ("b", .obj none none none (some true))]
        ["__default__"] "POST" "copy" ⟨none, some "a://x", some "b://y", none⟩ =
      some (.transportCall "__default__" "a://x" "copy"
        ⟨none, some "a://x", some "b://y", none⟩)) ∧
    jsLookup [("a", MountEntry.obj none none none none),
        ("b", MountEntry.obj none none none (some true))] "b" =
      some (MountEntry.obj none none none (some true)) ∧
    vfsRequest [("a", .obj none none none none), ("b", .obj none none none (some true))]
        ["__default__"] "POST" "copy" ⟨none, some "a://x", some "b://y", none⟩ ≠
      some (.rejected "Operation denied!") :=
  ⟨by decide, by decide, by decide⟩

/-- C1 (amended): a writing operation (`upload|write|delete|copy|move|mkdir`)
whose RELEVANT address — the `path` argument by default, the `src`
argument for copy/move (the destination is never consulted), the `root`
argument for freeSpace — parses to a protocol whose configured mount
object is disabled (`enabled:false`) or read-only (`ro:true`) is rejected
with 'Operation denied!' before any transport's request method is
invoked. -/
theorem vfs_write_op_ro_mount_denied
    (mounts : List (String × MountEntry)) (registry : List String)
    (method : String) (args : VfsArgs) (q p rest : String)
    (d t : Option String) (en ro : Option Bool)
    (hw : method ∈ writeableMap)
    (hq : extractQuery method args = some q)
    (hsplit : splitProtocol q = some (p, rest))
    (hmount : jsLookup mounts p = some (.obj d t en ro))
    (hflag : en = some false ∨ ro = some true) :
    vfsRequest mounts registry "POST" method args =
      some (.rejected "Operation denied!") := by
  have hc : writeableMap.contains method = true := by
    refine List.contains_iff_exists_mem_beq.mpr ⟨method, hw, ?_⟩
    simp
  have hd : ((en == some false) || ((ro == some true) && writeableMap.contains method)) = true := by
    rcases hflag with h | h
    · subst h; simp
    · subst h; simp; exact Or.inr hw
  rw [vfsRequest_post_shape,
    findTransport_denied mounts registry method args q p rest d t en ro hq hsplit hmount hd]

/-- C1 witness: a `write` against a `ro:true` mount is rejected with
'Operation denied!'. -/
theorem vfs_write_op_ro_mount_denied_witness :
    vfsRequest [("b", .obj none none none (some true))] ["__default__"] "POST" "write"
      { path := some "b://f" } = some (.rejected "Operation denied!") :=
  vfs_write_op_ro_mount_denied _ _ _ _ "b://f" "b" "f" none none none (some true)
    (by decide) (by decide) (by decide) (by decide) (Or.inr rfl)

/-! Claim C2. -/

/-- C2 (code bug): the protected-path guard of `VFS.delete` is dead code.
The source writes `['', '.', '/'].indexOf() !== -1`, invoking `indexOf`
with no argument (`undefined`), which is -1 for a string array — so a
delete whose resolved path is `""` (here `home://`, the mount root) is
NOT rejected with 'Permission denied': it proceeds through the existence
check and removes the resolved real path. -/
theorem delete_protected_path_guard_dead :
    (resolveRequestPath [("home", .str "/srv/users/%USERNAME%")] ⟨"dist", "/droot", "alice"⟩
        "home://").path = "" ∧
    jsIndexOf [.str "", .str ".", .str "/"] .undef = -1 ∧
    VFS_delete [("home", .str "/srv/users/%USERNAME%")] ⟨"dist", "/droot", "alice"⟩
        "home://" (fun _ => true) none =
      { outcome := .resolved true, removedPath := some "/srv/users/alice" } :=
  ⟨by decide, by decide, by decide⟩

/-! Claim C4. -/

/-- C4 (code bug): `VFS.exists` passes `checkFound = true` to
`existsWrapper`, inverting the documented behaviour: on an existing
target it REJECTS with 'File or directory already exist.', and on a
missing target it resolves true. -/
theorem vfs_exists_settles_inverted :
    VFS_exists [("home", .str "/srv/users/%USERNAME%")] ⟨"dist", "/droot", "alice"⟩
        "home://f.txt" (fun _ => true) = .rejected "File or directory already exist." ∧
    VFS_exists [("home", .str "/srv/users/%USERNAME%")] ⟨"dist", "/droot", "alice"⟩
        "home://f.txt" (fun _ => false) = .resolved true :=
  ⟨by decide, by decide⟩

/-! Claim C5. -/

/-- C5 (code bug): in the `options.raw === false` branch of `VFS.read`,
the block-scoped `const data` shadows the callback's buffer parameter, so
building the data-URL reads the binding inside its own temporal dead zone
and throws a ReferenceError: the base64 round-trip never happens (here
for the five bytes of "hello"). -/
theorem vfs_read_base64_branch_throws :
    VFS_read [("home", .str "/srv/users/%USERNAME%")] ⟨"dist", "/droot", "alice"⟩
        [(".txt", "text/plain")] "home://f.txt" (some false) none
        (fun _ => .ok [104, 101, 108, 108, 111]) =
      .threw "ReferenceError: Cannot access \x27data\x27 before initialization" := by
  decide

/-! Claim C9. -/

/-- C9: the dispatcher's `createWriteStream` classifies with the 'read'
operation, so an enabled `ro:true` mount still yields a transport (whose
`createWriteStream` then runs), while a dispatched `write` request on the
same path is rejected with 'Operation denied!'. -/
theorem createWriteStream_ignores_ro
    (mounts : List (String × MountEntry)) (registry : List String)
    (path p rest : String) (d : Option String) (en : Option Bool)
    (hsplit : splitProtocol path = some (p, rest))
    (hmount : jsLookup mounts p = some (.obj d none en (some true)))
    (hen : en ≠ some false)
    (hreg : "__default__" ∈ registry) :
    createWriteStreamTransport mounts registry path = some "__default__" ∧
    vfsRequest mounts registry "POST" "write" { path := some path } =
      some (.rejected "Operation denied!") := by
  constructor
  · have hen2 : (en == some false) = false := beq_eq_false_iff_ne.mpr hen
    have hnr : ¬ (("read" : String) ∈ writeableMap) := by decide
    simp [createWriteStreamTransport, findTransport, extractQuery, hsplit, hmount, hen2,
      find_beq_self hreg, hnr]
  · have hcw : writeableMap.contains "write" = true := by decide
    rw [vfsRequest_post_shape,
      findTransport_denied mounts registry "write" { path := some path } path p rest d none en
        (some true) (by simp [extractQuery]) hsplit hmount
        (by simp; exact Or.inr (by decide))]

/-- C9 witness: with mount `b` enabled and `ro:true`, creating a write
stream on `b://f` succeeds through the default transport while a `write`
request is denied. -/
theorem createWriteStream_ignores_ro_witness :
    createWriteStreamTransport [("b", .obj none none none (some true))] ["__default__"]
        "b://f" = some "__default__" ∧
    vfsRequest [("b", .obj none none none (some true))] ["__default__"] "POST" "write"
        { path := some "b://f" } = some (.rejected "Operation denied!") :=
  createWriteStream_ignores_ro [("b", .obj none none none (some true))] ["__default__"]
    "b://f" "b" "f" none none (by decide) (by decide) (by decide) (by decide)

/-! Claim C10. -/

/-- C10: every GET filesystem request is dispatched as the 'read'
operation on the path taken from the endpoint (a leading 'get/' prefix
stripped): whenever the dispatcher reaches a transport under GET, the
dispatched method is 'read' and therefore none of the writing
operations. -/
theorem get_request_always_reads
    (mounts : List (String × MountEntry)) (registry : List String)
    (endpoint : String) (data : VfsArgs) (tr q m : String) (d : VfsArgs)
    (h : vfsRequest mounts registry "GET" endpoint data = some (.transportCall tr q m d)) :
    m = "read" ∧ d = { path := some (stripGet endpoint) : VfsArgs } ∧ m ∉ writeableMap := by
  rw [vfsRequest_get_shape] at h
  split at h
  · exact Option.noConfusion h
  · simp at h
  · split at h
    · simp at h
    · simp only [Option.some.injEq, ReqOutcome.transportCall.injEq] at h
      obtain ⟨-, -, hm, hd⟩ := h
      refine ⟨hm.symm, hd.symm, ?_⟩
      rw [← hm]; decide

/-- C10 witness: a GET on endpoint 'get/home://f' reaches the default
transport with method 'read' and path 'home://f'. -/
theorem get_request_always_reads_witness :
    ("read" : String) = "read" ∧
    ({ path := some "home://f" } : VfsArgs) = { path := some (stripGet "get/home://f") } ∧
    ("read" : String) ∉ writeableMap :=
  get_request_always_reads [] ["__default__"] "get/home://f" {} "__default__" "home://f"
    "read" { path := some "home://f" } (by decide)

/-! Claim C7. -/

/-- The index search of `jsStrIndexOfAux` succeeds exactly on infix
occurrences. -/
theorem jsStrIndexOfAux_isSome (needle : List Char) :
    ∀ l, (jsStrIndexOfAux needle l).isSome = true ↔ needle <:+: l := by
  intro l
  induction l with
  | nil =>
    constructor
    · intro h
      rw [List.infix_nil]
      by_cases hp : needle.isPrefixOf ([] : List Char)
      · exact List.prefix_nil.mp (List.isPrefixOf_iff_prefix.mp hp)
      · simp [jsStrIndexOfAux, hp] at h
    · intro h
      rw [List.infix_nil] at h
      subst h
      simp [jsStrIndexOfAux]
  | cons c t ih =>
    by_cases hp : needle.isPrefixOf (c :: t)
    · constructor
      · intro _
        exact (List.isPrefixOf_iff_prefix.mp hp).isInfix
      · intro _
        simp [jsStrIndexOfAux, hp]
    · have hstep : jsStrIndexOfAux needle (c :: t) =
          (jsStrIndexOfAux needle t).map (· + 1) := by
        simp [jsStrIndexOfAux, hp]
      rw [hstep, List.infix_cons_iff]
      constructor
      · intro h
        right
        apply ih.mp
        simpa using h
      · intro h
        rcases h with h | h
        · exact absurd (List.isPrefixOf_iff_prefix.mpr h) hp
        · simpa using ih.mpr h

/-- The JS index test `indexOf(...) !== -1` holds exactly when the needle
occurs as a substring. -/
theorem jsStrIndexOf_hit (hay needle : String) :
    (jsStrIndexOf hay needle != -1) = true ↔ needle.toList <:+: hay.toList := by
  rw [← jsStrIndexOfAux_isSome needle.toList hay.toList]
  unfold jsStrIndexOf
  cases h : jsStrIndexOfAux needle.toList hay.toList with
  | none => simp [h]
  | some i => simp [h, bne_iff_ne]

/-- C7: the non-recursive `find` resolves exactly the directory entries
whose name is neither '.' nor '..' and whose lowercased name contains the
lowercased query as a substring. -/
theorem find_nonrecursive_exact
    (queryArg : Option String) (listing : List String) (iter : String) :
    iter ∈ VFS_find_nonrec queryArg listing ↔
      iter ∈ listing ∧ iter ≠ "." ∧ iter ≠ ".." ∧
        (strToLower (jsOr queryArg "")).toList <:+: (strToLower iter).toList := by
  have hiff : ∀ it : String,
      ((if it != "." && it != ".." then
          jsStrIndexOf (strToLower it) (strToLower (jsOr queryArg "")) != -1
        else false) = true) ↔
        (it ≠ "." ∧ it ≠ ".." ∧
          (strToLower (jsOr queryArg "")).toList <:+: (strToLower it).toList) := by
    intro it
    by_cases h1 : it = "."
    · subst h1; simp
    · by_cases h2 : it = ".."
      · subst h2; simp
      · have hb : (it != "." && it != "..") = true := by
          simp [bne_iff_ne, h1, h2]
        rw [if_pos hb, jsStrIndexOf_hit]
        simp [h1, h2]
  unfold VFS_find_nonrec readDirNames
  rw [List.mem_filter, hiff iter]

/-! Claim C6. -/

/-- C6 counterexample: an upload whose stream copy fails is rejected with
the stream error but the buffered temporary source file is NOT unlinked
(the success path alone unlinks), refuting "always deletes the temporary
source file on success or failure". -/
theorem upload_stream_error_keeps_tmp :
    VFS_upload [("home", .str "/srv/users/%USERNAME%")] ⟨"dist", "/droot", "alice"⟩
        "home://dir" "/tmp/up" "f.txt" none (fun s => s == "/tmp/up") (some "EIO") =
      some { outcome := .rejectedMsg "EIO", destOpened := true, sourceUnlinked := false } := by
  decide

/-- C6 (amended): (1) when the destination exists and overwrite is not
'true', the upload rejects with 'File or directory already exist.'
without ever opening the destination; (2) the temporary source file is
unlinked exactly when the upload ends in the success response — on every
rejection (missing source, conflicting destination, stream error) it is
left in place. -/
theorem upload_overwrite_guard_and_unlink
    (mounts : List (String × MountEntry)) (env : ResolveEnv)
    (dataPath sourcePath uploadName : String) (overwrite : Option String)
    (fsExists : String → Bool) (streamErr : Option String) (dreal : String)
    (hreal : (resolveRequestPath mounts env dataPath).real = some dreal) :
    (fsExists sourcePath = true → jsString overwrite ≠ "true" →
      fsExists (pathJoin dreal uploadName) = true →
      VFS_upload mounts env dataPath sourcePath uploadName overwrite fsExists streamErr =
        some { outcome := .rejectedMsg "File or directory already exist.",
               destOpened := false, sourceUnlinked := false }) ∧
    (∀ r, VFS_upload mounts env dataPath sourcePath uploadName overwrite fsExists streamErr =
        some r → (r.sourceUnlinked = true ↔ r.outcome = .respondedRaw)) := by
  constructor
  · intro h1 h2 h3
    simp [VFS_upload, hreal, existsWrapper, h1, h2, h3]
  · intro r hr
    simp only [VFS_upload, hreal] at hr
    by_cases hs : fsExists sourcePath = true <;>
      by_cases ho : jsString overwrite = "true" <;>
        by_cases hd2 : fsExists (pathJoin dreal uploadName) = true <;>
          cases streamErr <;>
            simp_all [existsWrapper] <;>
              simp [← hr]

/-- C6 witness: with an existing destination and no overwrite flag the
upload rejects before the destination is opened and without unlinking the
temporary source. -/
theorem upload_overwrite_guard_witness :
    VFS_upload [("home", .str "/srv/users/%USERNAME%")] ⟨"dist", "/droot", "alice"⟩
        "home://dir" "/tmp/up" "f.txt" none (fun _ => true) none =
      some { outcome := .rejectedMsg "File or directory already exist.",
             destOpened := false, sourceUnlinked := false } :=
  (upload_overwrite_guard_and_unlink [("home", .str "/srv/users/%USERNAME%")]
      ⟨"dist", "/droot", "alice"⟩ "home://dir" "/tmp/up" "f.txt" none (fun _ => true) none
      "/srv/users/alice/dir" (by decide)).1 (by decide) (by decide) (by decide)

/-! Claim C8. -/

/-- `jsLookup` on a cons cell. -/
theorem jsLookup_cons (k0 : String) (v0 : α) (m : List (String × α)) (k : String) :
    jsLookup ((k0, v0) :: m) k = if k0 = k then some v0 else jsLookup m k := by
  by_cases h : k0 = k
  · subst h
    simp [jsLookup, List.find?_cons_of_pos]
  · rw [if_neg h]
    unfold jsLookup
    rw [List.find?_cons_of_neg _ (by simpa using h)]

/-- `jsLookup` over a value-only map. -/
theorem jsLookup_map_value (f : α → β) (m : List (String × α)) (k : String) :
    jsLookup (m.map (fun p => (p.1, f p.2))) k = (jsLookup m k).map f := by
  induction m with
  | nil => rfl
  | cons x t ih =>
    obtain ⟨k0, v0⟩ := x
    by_cases h : k0 = k
    · simp [jsLookup_cons, h, ih]
    · simp [jsLookup_cons, h, ih]

/-- `jsLookup` after appending one binding. -/
theorem jsLookup_append_single (m : List (String × α)) (k0 : String) (v0 : α) (k : String) :
    jsLookup (m ++ [(k0, v0)]) k =
      (jsLookup m k).or (if k0 = k then some v0 else none) := by
  induction m with
  | nil =>
    by_cases h : k0 = k
    · rw [List.nil_append, jsLookup_cons, if_pos h, if_pos h]
      rfl
    · rw [List.nil_append, jsLookup_cons, if_neg h, if_neg h]
      rfl
  | cons x t ih =>
    obtain ⟨k1, v1⟩ := x
    rw [List.cons_append, jsLookup_cons, jsLookup_cons]
    by_cases h : k1 = k
    · rw [if_pos h, if_pos h]; rfl
    · rw [if_neg h, if_neg h, ih]

/-- Overwriting the values of all bindings of one key. -/
theorem jsLookup_map_overwrite (m : Manifest) (k : String) (v : PkgMeta) (q : String) :
    jsLookup (m.map (fun p => if p.1 == k then (p.1, v) else p)) q =
      if q = k then (jsLookup m q).map (fun _ => v) else jsLookup m q := by
  induction m with
  | nil =>
    by_cases h : q = k
    · rw [if_pos h]; rfl
    · rw [if_neg h]; rfl
  | cons x t ih =>
    obtain ⟨k0, v0⟩ := x
    by_cases hk0 : k0 = k <;> by_cases hq2 : k0 = q <;> by_cases hqk : q = k <;>
      simp_all [jsLookup_cons]

/-- Lookup after a JS object assignment. -/
theorem upsert_jsLookup (m : Manifest) (k : String) (v : PkgMeta) (q : String) :
    jsLookup (upsert m k v) q = if q = k then some v else jsLookup m q := by
  unfold upsert
  have hiso : (m.find? (fun p => p.1 == k)).isSome = (jsLookup m k).isSome := by
    unfold jsLookup
    cases m.find? (fun p => p.1 == k) <;> rfl
  by_cases hex : (m.find? (fun p => p.1 == k)).isSome = true
  · rw [if_pos hex, jsLookup_map_overwrite]
    by_cases hq : q = k
    · subst hq
      rw [if_pos rfl, if_pos rfl]
      obtain ⟨w, hw⟩ := Option.isSome_iff_exists.mp (hiso ▸ hex)
      rw [hw]; rfl
    · rw [if_neg hq, if_neg hq]
  · rw [if_neg hex, jsLookup_append_single]
    have hnone : jsLookup m k = none := by
      apply Option.not_isSome_iff_eq_none.mp
      rw [← hiso]
      simpa using hex
    by_cases hq : q = k
    · subst hq
      rw [if_pos rfl, if_pos rfl, hnone, Option.none_or]
    · rw [if_neg hq, if_neg (fun h => hq h.symm), Option.or_none]

/-- Every entry `getUserMetadata` produces carries scope 'user'. -/
theorem getUserMetadata_scope (userMs : List Manifest) :
    ∀ k v, jsLookup (getUserMetadata userMs) k = some v → v.scope = some "user" := by
  have hinner : ∀ (entries acc : Manifest),
      (∀ k v, jsLookup acc k = some v → v.scope = some "user") →
      ∀ k v, jsLookup (entries.foldl
          (fun s p => upsert s p.1 (setScope "user" p.2)) acc) k = some v →
        v.scope = some "user" := by
    intro entries
    induction entries with
    | nil => intro acc h; exact h
    | cons e es ihe =>
      intro acc h
      apply ihe
      intro k v hkv
      rw [upsert_jsLookup] at hkv
      by_cases hq : k = e.1
      · rw [if_pos hq] at hkv
        cases hkv
        rfl
      · rw [if_neg hq] at hkv
        exact h k v hkv
  have houter : ∀ (ms : List Manifest) (acc : Manifest),
      (∀ k v, jsLookup acc k = some v → v.scope = some "user") →
      ∀ k v, jsLookup (ms.foldl
          (fun summed meta => meta.foldl
            (fun s p => upsert s p.1 (setScope "user" p.2)) summed) acc) k =
          some v → v.scope = some "user" := by
    intro ms
    induction ms with
    | nil => intro acc h; exact h
    | cons m rest ih =>
      intro acc h
      exact ih _ (hinner m acc h)
  exact houter userMs [] (by intro k v h2; exact absurd h2 (by simp [jsLookup]))

/-- Lookup through the system-over-user merge fold of `list`. -/
theorem mergeFold_jsLookup (user : Manifest) :
    ∀ (summed : Manifest) (k : String),
      jsLookup (user.foldl
          (fun s p => if (jsLookup s p.1).isSome then s else s ++ [(p.1, p.2)]) summed) k =
        (jsLookup summed k).or (jsLookup user k) := by
  induction user with
  | nil =>
    intro summed k
    have : jsLookup ([] : Manifest) k = none := rfl
    simp [this]
  | cons e rest ih =>
    intro summed k
    obtain ⟨k0, v0⟩ := e
    rw [List.foldl_cons]
    by_cases hex : (jsLookup summed k0).isSome = true
    · rw [if_pos hex, ih, jsLookup_cons]
      by_cases hk : k0 = k
      · subst hk
        obtain ⟨w, hw⟩ := Option.isSome_iff_exists.mp hex
        rw [if_pos rfl, hw]
        rfl
      · rw [if_neg hk]
    · have hnone : jsLookup summed k0 = none :=
        Option.not_isSome_iff_eq_none.mp (by simpa using hex)
      rw [if_neg hex, ih, jsLookup_append_single, jsLookup_cons]
      by_cases hk : k0 = k
      · subst hk
        rw [if_pos rfl, if_pos rfl, hnone]
        rfl
      · rw [if_neg hk, if_neg hk, Option.or_none]

/-- C8: with no scope, `list` resolves the merge in which every system key
wins with scope 'system' and a user key appears (with scope 'user') only
when absent from the system manifest; with an explicit scope only that
tier is returned; and the concrete `(a system, b user)` scenario holds. -/
theorem pm_list_merge (sysM : Manifest) (userMs : List Manifest) :
    (∃ M, pmList sysM userMs none = .resolved M ∧
      ∀ k, jsLookup M k =
        ((jsLookup sysM k).map (setScope "system")).or
          (jsLookup (getUserMetadata userMs) k)) ∧
    (∀ k v, jsLookup (getUserMetadata userMs) k = some v → v.scope = some "user") ∧
    pmList sysM userMs (some "system") = .resolved (getSystemMetadata sysM) ∧
    pmList sysM userMs (some "user") = .resolved (getUserMetadata userMs) ∧
    pmList [("a", ⟨none, "A"⟩)] [[("b", ⟨none, "B"⟩)]] none =
      .resolved [("a", ⟨some "system", "A"⟩), ("b", ⟨some "user", "B"⟩)] := by
  refine ⟨⟨_, rfl, ?_⟩, getUserMetadata_scope userMs, rfl, rfl, by decide⟩
  intro k
  rw [mergeFold_jsLookup]
  unfold getSystemMetadata
  rw [jsLookup_map_value]

/-- C8 witness: in the scenario manifest, the user tier entry `b` indeed
carries scope 'user'. -/
theorem pm_list_merge_witness :
    (⟨some "user", "B"⟩ : PkgMeta).scope = some "user" :=
  (pm_list_merge [("a", ⟨none, "A"⟩)] [[("b", ⟨none, "B"⟩)]]).2.1 "b" ⟨some "user", "B"⟩
    (by decide)

/-! Claim C3. -/

/-- `toList` distributes over string concatenation. -/
theorem strAppend_toList (a b : String) : (a ++ b).toList = a.toList ++ b.toList := by
  simp [String.toList, String.data_append]

/-- A string beginning with '/' is nonempty. -/
theorem slash_append_ne_empty (x : String) : ("/" ++ x) ≠ "" := by
  intro h
  have h2 := congrArg String.toList h
  rw [strAppend_toList, show "/".toList = ['/'] from rfl,
    show "".toList = ([] : List Char) from rfl] at h2
  cases h2

/-- Segment splitting distributes over a '/' separator. -/
theorem splitSegsAux_append (l1 l2 : List Char) :
    ∀ acc, splitSegsAux acc (l1 ++ '/' :: l2) =
      splitSegsAux acc l1 ++ splitSegsAux [] l2 := by
  induction l1 with
  | nil => intro acc; simp [splitSegsAux]
  | cons c t ih =>
    intro acc
    simp only [List.cons_append, splitSegsAux, List.append_eq]
    by_cases hc : c = '/'
    · rw [if_pos hc, if_pos hc, ih, List.cons_append]
    · rw [if_neg hc, if_neg hc, ih]

/-- With no ".." segment, normalization just pushes the kept segments. -/
theorem foldl_processSeg_clean (abs : Bool) :
    ∀ (segs acc : List String), (∀ s ∈ segs, s ≠ "..") →
      segs.foldl (processSeg abs) acc = (segs.filter keepSeg).reverse ++ acc := by
  intro segs
  induction segs with
  | nil => intro acc _; simp
  | cons s t ih =>
    intro acc h
    have hs : s ≠ ".." := h s (List.mem_cons_self s t)
    have ht : ∀ x ∈ t, x ≠ ".." := fun x hx => h x (List.mem_cons_of_mem s hx)
    rw [List.foldl_cons, List.filter_cons]
    by_cases h2 : s = "" ∨ s = "."
    · have hkeep : keepSeg s = false := by
        rcases h2 with h2 | h2 <;> subst h2 <;> rfl
      have hstep : processSeg abs acc s = acc := by
        rcases h2 with h2 | h2 <;> subst h2 <;> rfl
      rw [hkeep, hstep]
      simpa using ih acc ht
    · push_neg at h2
      have hkeep : keepSeg s = true := by
        simp [keepSeg, h2.1, h2.2]
      have hstep : processSeg abs acc s = s :: acc := by
        simp [processSeg, h2.1, h2.2, hs]
      rw [hkeep, hstep, ih (s :: acc) ht]
      simp

/-- Joining distributes over append of nonempty segment lists. -/
theorem joinSlash_append (a b : List String) (ha : a ≠ []) (hb : b ≠ []) :
    joinSlash (a ++ b) = joinSlash a ++ "/" ++ joinSlash b := by
  induction a with
  | nil => exact absurd rfl ha
  | cons x t ih =>
    cases t with
    | nil =>
      cases b with
      | nil => exact absurd rfl hb
      | cons y u => simp [joinSlash]
    | cons z w =>
      have h2 := ih (by simp)
      rw [List.cons_append]
      have e1 : joinSlash (x :: ((z :: w) ++ b)) =
          x ++ "/" ++ joinSlash ((z :: w) ++ b) := rfl
      have e2 : joinSlash (x :: z :: w) = x ++ "/" ++ joinSlash (z :: w) := rfl
      rw [e1, h2, e2]
      simp [String.append_assoc]

/-- A string whose first character is '/' satisfies `isAbs` after any
further concatenation on the right. -/
theorem isAbs_append (dest : String) (cs : List Char) (hcs : dest.toList = '/' :: cs)
    (x : String) : isAbs (dest ++ x) = true := by
  unfold isAbs
  rw [strAppend_toList, hcs]
  simp

/-- Node path joining keeps a ".."-free relative path under the
(normalized) base: `path.join(dest, path)` extends `path.join(dest, '')`
by a (possibly empty) suffix. -/
theorem pathJoin_rooted (dest path : String)
    (habs : isAbs dest = true)
    (hnd : ∀ s ∈ splitSegs path, s ≠ "..") :
    ∃ tail, pathJoin dest path = pathJoin dest "" ++ tail := by
  obtain ⟨cs, hcs⟩ : ∃ cs, dest.toList = '/' :: cs := by
    unfold isAbs at habs
    cases h : dest.toList with
    | nil => rw [h] at habs; cases habs
    | cons c l =>
      rw [h] at habs
      simp only [beq_iff_eq] at habs
      exact ⟨l, by rw [habs]⟩
  have habs1 : isAbs (dest ++ "/" ++ path) = true := by
    have := isAbs_append dest cs hcs ("/" ++ path)
    rw [show dest ++ "/" ++ path = dest ++ ("/" ++ path) from by
      simp [String.append_assoc]]
    exact this
  have habs2 : isAbs (dest ++ "/" ++ "") = true := by
    have := isAbs_append dest cs hcs ("/" ++ "")
    rw [show dest ++ "/" ++ "" = dest ++ ("/" ++ "") from by
      simp [String.append_assoc]]
    exact this
  have hsp1 : splitSegs (dest ++ "/" ++ path) = splitSegs dest ++ splitSegs path := by
    unfold splitSegs
    rw [show (dest ++ "/" ++ path).toList = dest.toList ++ '/' :: path.toList from by
      rw [strAppend_toList, strAppend_toList, show "/".toList = ['/'] from rfl,
        List.append_assoc, List.singleton_append]]
    exact splitSegsAux_append _ _ _
  have hsp2 : splitSegs (dest ++ "/" ++ "") = splitSegs dest ++ [""] := by
    unfold splitSegs
    rw [show (dest ++ "/" ++ "").toList = dest.toList ++ '/' :: ([] : List Char) from by
      rw [strAppend_toList, strAppend_toList, show "/".toList = ['/'] from rfl,
        show "".toList = ([] : List Char) from rfl, List.append_assoc, List.singleton_append]]
    exact splitSegsAux_append _ _ _
  have hout1 : pathJoin dest path =
      "/" ++ joinSlash ((((splitSegs dest).foldl (processSeg true) []).reverse) ++
        (splitSegs path).filter keepSeg) := by
    simp only [pathJoin, habs1, hsp1, if_true]
    rw [List.foldl_append,
      foldl_processSeg_clean true (splitSegs path) _ hnd,
      List.reverse_append, List.reverse_reverse]
    rw [if_neg (slash_append_ne_empty _)]
  have hout2 : pathJoin dest "" =
      "/" ++ joinSlash (((splitSegs dest).foldl (processSeg true) []).reverse) := by
    simp only [pathJoin, habs2, hsp2, if_true]
    rw [List.foldl_append]
    rw [show ([""] : List String).foldl (processSeg true)
        ((splitSegs dest).foldl (processSeg true) []) =
        (splitSegs dest).foldl (processSeg true) [] from rfl]
    rw [if_neg (slash_append_ne_empty _)]
  set A := ((splitSegs dest).foldl (processSeg true) []).reverse with hA
  set F := (splitSegs path).filter keepSeg with hF
  rw [hout1, hout2]
  cases hFc : F with
  | nil =>
    refine ⟨"", ?_⟩
    rw [List.append_nil]
    have : ∀ y : String, y ++ "" = y := by intro y; simp
    rw [this]
  | cons f fs =>
    cases hAc : A with
    | nil =>
      refine ⟨joinSlash F, ?_⟩
      rw [List.nil_append, ← hFc]
      have h1 : joinSlash ([] : List String) = "" := rfl
      rw [h1]
      have h2 : ("/" : String) ++ "" = "/" := by simp
      rw [h2]
    | cons a as =>
      refine ⟨"/" ++ joinSlash F, ?_⟩
      rw [← hAc, ← hFc,
        joinSlash_append A F (by rw [hAc]; simp) (by rw [hFc]; simp)]
      simp [String.append_assoc]

/-- C3 counterexample: with the claim's own scenario mount
(`home -> /srv/users/%USERNAME%`, username alice) the address
`home://../../etc/passwd` resolves to the real path `/srv/etc/passwd`,
which is NOT rooted under the substituted destination
`/srv/users/alice` — the resolver performs no traversal check, so the
claimed universal rootedness fails. -/
theorem resolve_dotdot_escapes :
    (resolveRequestPath [("home", MountEntry.str "/srv/users/%USERNAME%")]
        ⟨"dist", "/droot", "alice"⟩ "home://../../etc/passwd").real =
      some "/srv/etc/passwd" ∧
    substTokens ⟨"dist", "/droot", "alice"⟩ "home" "/srv/users/%USERNAME%" =
      "/srv/users/alice" ∧
    strIsPrefix "/srv/users/alice" "/srv/etc/passwd" = false :=
  ⟨by decide, by decide, by decide⟩

/-- C3 (amended): for an address whose protocol resolves to a destination
template, the resolver substitutes the five tokens (one global-replace
pass per token) and yields `real = path.join(substituted, path)`; when
the substituted destination is absolute and the relative path holds no
".." segment, the real path is rooted under the (normalized) destination;
the alice scenario yields `/srv/users/alice/docs/a.txt`. -/
theorem resolve_template_rooted
    (mounts : List (String × MountEntry)) (env : ResolveEnv)
    (query protocol rawPath tmpl : String)
    (hsplit : splitProtocol query = some (protocol, rawPath))
    (hdest : resolveDestination mounts protocol = some tmpl)
    (habs : isAbs (substTokens env protocol tmpl) = true)
    (hnd : ∀ s ∈ splitSegs (stripOneSlash rawPath), s ≠ "..") :
    (resolveRequestPath mounts env query).real =
        some (pathJoin (substTokens env protocol tmpl) (stripOneSlash rawPath)) ∧
    ∃ tail, pathJoin (substTokens env protocol tmpl) (stripOneSlash rawPath) =
        pathJoin (substTokens env protocol tmpl) "" ++ tail := by
  constructor
  · simp [resolveRequestPath, hsplit, hdest]
  · exact pathJoin_rooted _ _ habs hnd

/-- C3 witness: the claim's scenario — mount `home -> /srv/users/%USERNAME%`,
session username alice, address `home://docs/a.txt` — resolves to the
real path `/srv/users/alice/docs/a.txt`, rooted under the destination. -/
theorem resolve_template_rooted_witness :
    (resolveRequestPath [("home", MountEntry.str "/srv/users/%USERNAME%")]
        ⟨"dist", "/droot", "alice"⟩ "home://docs/a.txt").real =
      some "/srv/users/alice/docs/a.txt" ∧
    ∃ tail,
      pathJoin (substTokens ⟨"dist", "/droot", "alice"⟩ "home" "/srv/users/%USERNAME%")
          (stripOneSlash "docs/a.txt") =
        pathJoin (substTokens ⟨"dist", "/droot", "alice"⟩ "home" "/srv/users/%USERNAME%")
          "" ++ tail := by
  have h := resolve_template_rooted [("home", MountEntry.str "/srv/users/%USERNAME%")]
    ⟨"dist", "/droot", "alice"⟩ "home://docs/a.txt" "home" "docs/a.txt"
    "/srv/users/%USERNAME%" (by decide) (by decide) (by decide) (by decide)
  exact ⟨h.1.trans (by decide), h.2⟩

end OSJS
